import Mathlib

/-!
Verification of the incremental streaming-transcription client of the
typhoon-asr-with-nextjs repository.  The subject is the
`HttpStreamingTranscription` component in `web/app/page.tsx`: its
response-stream decoding loop (`processAudioChunks`, the `while`/`for`
loops over `reader.read()` chunks and their newline-split lines), its
session lifecycle (`startRecording`, `stopRecording`, the periodic
`setInterval` trigger and the `mediaRecorder.onstop` final flush), and
the observable outcome (`transcription`, `error`, `status`).

Strings delivered by the transport are modelled as `List Char` (the
output of `TextDecoder.decode(value, \x7bstream: true\x7d)`, which
reassembles split multi-byte code points but performs no line-level
buffering, so for the ASCII inputs used below a byte is a character).
-/

namespace ASR

/-- Decoded JSON value, the result of a successful `JSON.parse(line)`.
Numbers are kept as their lexemes: the client never reads a numeric
value out of a stream event, only compares strings and tests truthiness. -/
inductive Json where
  | jnull
  | jbool (b : Bool)
  | jnum (lexeme : String)
  | jstr (s : String)
  | jarr (elems : List Json)
  | jobj (fields : List (String × Json))

/-- The character `\x7b` (left curly brace), written via its code point. -/
def lbrace : Char := Char.ofNat 123

/-- The character `\x7d` (right curly brace), written via its code point. -/
def rbrace : Char := Char.ofNat 125

/-- Value of a hexadecimal digit, used for `\u` escapes. -/
def hexVal (c : Char) : Option Nat :=
  let n := c.toNat
  if 48 ≤ n ∧ n ≤ 57 then some (n - 48)
  else if 97 ≤ n ∧ n ≤ 102 then some (n - 87)
  else if 65 ≤ n ∧ n ≤ 70 then some (n - 55)
  else none

/-- Drop leading JSON whitespace. -/
def skipWs : List Char → List Char
  | c :: cs => if c.isWhitespace then skipWs cs else c :: cs
  | [] => []

/-- Body of a JSON string literal (after the opening quote): handles the
escape sequences `JSON.parse` accepts and rejects raw control characters. -/
def pStringBody (acc : List Char) : List Char → Option (String × List Char)
  | [] => none
  | c :: cs =>
    if c = '"' then some (String.mk acc.reverse, cs)
    else if c = '\\' then
      match cs with
      | e :: cs2 =>
        if e = '"' ∨ e = '\\' ∨ e = '/' then pStringBody (e :: acc) cs2
        else if e = 'n' then pStringBody ('\n' :: acc) cs2
        else if e = 't' then pStringBody ('\t' :: acc) cs2
        else if e = 'r' then pStringBody ('\r' :: acc) cs2
        else if e = 'b' then pStringBody (Char.ofNat 8 :: acc) cs2
        else if e = 'f' then pStringBody (Char.ofNat 12 :: acc) cs2
        else if e = 'u' then
          match cs2 with
          | h1 :: h2 :: h3 :: h4 :: cs3 =>
            match hexVal h1, hexVal h2, hexVal h3, hexVal h4 with
            | some a, some b, some c3, some d =>
              pStringBody (Char.ofNat (((a * 16 + b) * 16 + c3) * 16 + d) :: acc) cs3
            | _, _, _, _ => none
          | _ => none
        else none
      | [] => none
    else if c.toNat < 32 then none
    else pStringBody (c :: acc) cs

/-- Longest prefix of decimal digits, with the remainder. -/
def takeDigits : List Char → List Char × List Char
  | c :: cs =>
    if c.isDigit then
      let p := takeDigits cs
      (c :: p.1, p.2)
    else ([], c :: cs)
  | [] => ([], [])

/-- Optional fraction part of a JSON number. -/
def pFrac : List Char → Option (List Char × List Char)
  | c :: cs =>
    if c = '.' then
      match takeDigits cs with
      | ([], _) => none
      | (ds, r) => some (c :: ds, r)
    else some ([], c :: cs)
  | [] => some ([], [])

/-- Optional exponent part of a JSON number. -/
def pExp : List Char → Option (List Char × List Char)
  | c :: cs =>
    if c = 'e' ∨ c = 'E' then
      let p : List Char × List Char :=
        match cs with
        | d :: ds => if d = '+' ∨ d = '-' then ([d], ds) else ([], cs)
        | [] => ([], [])
      match takeDigits p.2 with
      | ([], _) => none
      | (ds, r) => some (c :: p.1 ++ ds, r)
    else some ([], c :: cs)
  | [] => some ([], [])

/-- JSON number lexeme (kept as a string; slightly permissive about
leading zeros, which no stream event exercises). -/
def pNumber (l : List Char) : Option (String × List Char) :=
  let p : List Char × List Char :=
    match l with
    | c :: cs => if c = '-' then ([c], cs) else ([], l)
    | [] => ([], [])
  match takeDigits p.2 with
  | ([], _) => none
  | (ds, r1) =>
    match pFrac r1 with
    | none => none
    | some (fr, r2) =>
      match pExp r2 with
      | none => none
      | some (ex, r3) => some (String.mk (p.1 ++ ds ++ fr ++ ex), r3)

mutual

/-- Recursive-descent JSON value, fuel-indexed; every recursive call
strictly decreases the fuel. -/
def pValue : Nat → List Char → Option (Json × List Char)
  | 0, _ => none
  | fuel + 1, l =>
    match skipWs l with
    | [] => none
    | c :: rest =>
      if c = '"' then
        match pStringBody [] rest with
        | some (s, r) => some (Json.jstr s, r)
        | none => none
      else if c = lbrace then
        match skipWs rest with
        | c2 :: r2 =>
          if c2 = rbrace then some (Json.jobj [], r2)
          else pMembers fuel (c2 :: r2) []
        | [] => none
      else if c = '[' then
        match skipWs rest with
        | c2 :: r2 =>
          if c2 = ']' then some (Json.jarr [], r2)
          else pElems fuel (c2 :: r2) []
        | [] => none
      else if c = 't' then
        match rest with
        | 'r' :: 'u' :: 'e' :: r => some (Json.jbool true, r)
        | _ => none
      else if c = 'f' then
        match rest with
        | 'a' :: 'l' :: 's' :: 'e' :: r => some (Json.jbool false, r)
        | _ => none
      else if c = 'n' then
        match rest with
        | 'u' :: 'l' :: 'l' :: r => some (Json.jnull, r)
        | _ => none
      else
        match pNumber (c :: rest) with
        | some (s, r) => some (Json.jnum s, r)
        | none => none

/-- Members of a JSON object after the opening brace (nonempty case). -/
def pMembers : Nat → List Char → List (String × Json) → Option (Json × List Char)
  | 0, _, _ => none
  | fuel + 1, l, acc =>
    match skipWs l with
    | c :: rest =>
      if c = '"' then
        match pStringBody [] rest with
        | some (k, r1) =>
          match skipWs r1 with
          | ':' :: r2 =>
            match pValue fuel r2 with
            | some (v, r3) =>
              match skipWs r3 with
              | c4 :: r4 =>
                if c4 = rbrace then some (Json.jobj ((k, v) :: acc).reverse, r4)
                else if c4 = ',' then pMembers fuel r4 ((k, v) :: acc)
                else none
              | [] => none
            | none => none
          | _ => none
        | none => none
      else none
    | [] => none

/-- Elements of a JSON array after the opening bracket (nonempty case). -/
def pElems : Nat → List Char → List Json → Option (Json × List Char)
  | 0, _, _ => none
  | fuel + 1, l, acc =>
    match pValue fuel l with
    | some (v, r) =>
      match skipWs r with
      | c :: r2 =>
        if c = ']' then some (Json.jarr (v :: acc).reverse, r2)
        else if c = ',' then pElems fuel r2 (v :: acc)
        else none
      | [] => none
    | none => none

end

/-- The model of `JSON.parse(line)`: a complete JSON value with nothing
but whitespace after it, otherwise failure (the `catch` branch). -/
def parseJson (l : List Char) : Option Json :=
  match pValue (l.length + 1) l with
  | some (j, r) =>
    match skipWs r with
    | [] => some j
    | _ :: _ => none
  | none => none

/-- Property access `data[k]` on a decoded value: on an object the last
binding wins (as in `JSON.parse`); on any other value the result is
`undefined`, modelled as `none`. -/
def getField (j : Json) (k : String) : Option Json :=
  match j with
  | Json.jobj fields =>
    fields.foldl (fun acc f => if f.1 == k then some f.2 else acc) none
  | _ => none

/-- Whether a number lexeme denotes zero (its mantissa has no nonzero
digit); only used for JavaScript truthiness of numbers. -/
def numLexIsZero (lex : String) : Bool :=
  (lex.toList.takeWhile (fun c => c ≠ 'e' ∧ c ≠ 'E')).all
    (fun c => !c.isDigit || c = '0')

/-- JavaScript truthiness of a decoded value. -/
def jsTruthyV : Json → Bool
  | Json.jnull => false
  | Json.jbool b => b
  | Json.jstr s => !s.isEmpty
  | Json.jnum lex => !numLexIsZero lex
  | Json.jarr _ => true
  | Json.jobj _ => true

/-- JavaScript truthiness of a possibly-`undefined` value. -/
def jsTruthy : Option Json → Bool
  | none => false
  | some v => jsTruthyV v

/-- String rendering of a decoded value, for the rare case where a
non-string value reaches a string-valued state setter.  Arrays are
approximated; the service schema never emits one in these positions. -/
def jsDisplay : Json → String
  | Json.jstr s => s
  | Json.jnum lex => lex
  | Json.jbool b => if b then "true" else "false"
  | Json.jnull => "null"
  | Json.jarr _ => ""
  | Json.jobj _ => "[object Object]"

/-- Whether `data.status === tag` for a decoded event `data`. -/
def statusIs (data : Json) (tag : String) : Bool :=
  match getField data "status" with
  | some (Json.jstr s) => s == tag
  | _ => false

/-- The observable value assigned by `setError(data.message)`: the
component reads `error` only through truthiness and display, so a falsy
message (absent, `null`, `""`, `0`, `false`) is modelled as `none` and a
truthy one as its display string. -/
def setErrorVal (v : Option Json) : Option String :=
  match v with
  | some j => if jsTruthyV j then some (jsDisplay j) else none
  | none => none

/-- The value of `data.result.text || ""`: the `text` field when truthy,
otherwise the empty string. -/
def textOrEmpty (result : Json) : String :=
  match getField result "text" with
  | some v => if jsTruthyV v then jsDisplay v else ""
  | none => ""

/-- Audio fragments are opaque byte lists; only emptiness is ever
inspected by the client. -/
abbrev AudioChunk := List Nat

/-- Observable and internal state of one `HttpStreamingTranscription`
component instance.  `chunks` is `audioChunksRef.current`,
`recorderActive` is `mediaRecorder.state !== "inactive"` together with
the live tracks, and `intervalArmed` is
`processingIntervalRef.current !== null`. -/
structure SessionState where
  isRecording : Bool
  isStreaming : Bool
  status : String
  transcription : String
  error : Option String
  chunks : List AudioChunk
  audioBlob : Option (List AudioChunk)
  recorderActive : Bool
  intervalArmed : Bool

/-- One iteration of the `for (const line of lines)` loop of
`processAudioChunks`: parse the line (a parse failure is logged and
ignored), set the error and `break` on an `error` status, set the
transcription on a `complete` status with a truthy `result`.  Returns
the new state and whether the loop `break`s. -/
def applyLine (s : SessionState) (line : List Char) : SessionState × Bool :=
  match parseJson line with
  | none => (s, false)
  | some data =>
    if statusIs data "error" then
      ({ s with error := setErrorVal (getField data "message") }, true)
    else
      match getField data "result" with
      | some r =>
        if statusIs data "complete" && jsTruthyV r then
          ({ s with transcription := textOrEmpty r }, false)
        else (s, false)
      | none => (s, false)

/-- The whole `for (const line of lines)` loop: apply lines in order,
stopping early when a line `break`s. -/
def processLines (s : SessionState) : List (List Char) → SessionState
  | [] => s
  | l :: rest =>
    match applyLine s l with
    | (s2, true) => s2
    | (s2, false) => processLines s2 rest

/-- The model of `chunk.split("\n")` on character lists. -/
def splitNl : List Char → List (List Char)
  | [] => [[]]
  | c :: cs =>
    if c = '\n' then [] :: splitNl cs
    else
      match splitNl cs with
      | [] => [[c]]
      | l :: ls => (c :: l) :: ls

/-- Whether a split segment survives `.filter((line) => line.trim())`:
it must contain a non-whitespace character. -/
def nonBlank (l : List Char) : Bool := !l.all Char.isWhitespace

/-- The lines the loop body sees for one `reader.read()` chunk:
`chunk.split("\n").filter((line) => line.trim())`.  There is no
carry-over of a trailing partial line to the next read. -/
def chunkLines (chunk : List Char) : List (List Char) :=
  (splitNl chunk).filter nonBlank

/-- Processing of one read chunk against the component state. -/
def processChunk (s : SessionState) (chunk : List Char) : SessionState :=
  processLines s (chunkLines chunk)

/-- The whole `while (true)` read loop over a response body delivered as
a list of reads; `done` merely exits the loop (no terminal bookkeeping). -/
def processReads (s : SessionState) (reads : List (List Char)) : SessionState :=
  reads.foldl processChunk s

/-- The StreamEvents decoded from one read chunk, as a sequence: the
successfully parsed values of its nonblank lines. -/
def chunkEvents (chunk : List Char) : List Json :=
  (chunkLines chunk).filterMap parseJson

/-- The StreamEvents decoded from a response body delivered as a given
list of reads. -/
def readsEvents (reads : List (List Char)) : List Json :=
  (reads.map chunkEvents).flatten

/-- The value of `isRecording` inside the closure of every
`processAudioChunks` instance that is ever invoked during a session.
`startRecording` runs in a render where `isRecording` is still `false`
(the start button is only shown then); the `setInterval` callback and
the `mediaRecorder.onstop` handler it installs both capture that
render's memoized `processAudioChunks`, whose closure therefore holds
`isRecording = false` forever.  The re-memoized instance produced by the
`useCallback` dependency `isRecording` after the re-render is never
referenced by the timer or the recorder, so the fresh value is never
consulted. -/
def capturedIsRecording : Bool := false

/-- The `catch` handler of `processAudioChunks`: a transport failure
(rejected `fetch`, non-ok HTTP status, failed body read) sets the error
unless the invoked closure's `isRecording` is true. -/
def catchFail (closureRec : Bool) (msg : String) (s : SessionState) : SessionState :=
  if closureRec then s else { s with error := some msg }

/-- Result of one `fetch` to `/stream-transcribe` as observed by the
caller: either a successfully read response body (its reads) or a
failure message. -/
inductive FetchOutcome where
  | ok (reads : List (List Char))
  | fail (msg : String)

/-- Effect of a resolved `processAudioChunks` call on the state, given
the fetch outcome; the empty-chunks early return is checked by the
caller at issue time. -/
def applyOutcome (s : SessionState) : FetchOutcome → SessionState
  | FetchOutcome.ok reads => processReads s reads
  | FetchOutcome.fail msg => catchFail capturedIsRecording msg s

/-- Pending asynchronous work of a session, delivered in any order by
the event loop after it is scheduled. -/
inductive PendingTask where
  | respOk (reads : List (List Char))
  | respFail (msg : String)
  | onstopFlush (o : FetchOutcome)
  | idleTimer

/-- Run one pending task.  `respOk`/`respFail` are the continuations of
an already-issued periodic request.  `onstopFlush` is the
`mediaRecorder.onstop` handler: set `audioBlob`, run the final
`processAudioChunks` (which returns immediately when no chunks were
captured), and in its `finally` set the status to idle.  `idleTimer` is
the two-second `setTimeout` scheduled by `stopRecording`. -/
def runTask (s : SessionState) : PendingTask → SessionState
  | PendingTask.respOk reads => processReads s reads
  | PendingTask.respFail msg => catchFail capturedIsRecording msg s
  | PendingTask.onstopFlush o =>
    let s1 := { s with audioBlob := some s.chunks }
    { (if s1.chunks.isEmpty then s1 else applyOutcome s1 o) with status := "idle" }
  | PendingTask.idleTimer => { s with status := "idle" }

/-- Run a list of pending tasks in order. -/
def runTasks (s : SessionState) (ts : List PendingTask) : SessionState :=
  ts.foldl runTask s

/-- Whether a task unconditionally ends by setting the status to idle. -/
def setsIdle : PendingTask → Bool
  | PendingTask.onstopFlush _ => true
  | PendingTask.idleTimer => true
  | _ => false

/-- Whether a firing of the periodic trigger issues a request: the
interval must still be armed (``clearInterval`` also cancels queued
callbacks, so a disarmed trigger cannot fire at all) and the captured
`processAudioChunks` returns without fetching when no chunks exist. -/
def tickIssues (s : SessionState) : Bool :=
  s.intervalArmed && !s.chunks.isEmpty

/-- The `startRecording` success path, in source order: clear the error,
the transcription, the chunk accumulator and the previous blob, mark
streaming, acquire the recorder, start it, mark recording, and arm the
periodic trigger. -/
def startRecordingOk (s : SessionState) : SessionState :=
  { s with error := none, transcription := "", chunks := [], audioBlob := none,
           isStreaming := true, recorderActive := true, isRecording := true,
           status := "recording", intervalArmed := true }

/-- The `startRecording` failure path (`getUserMedia` rejected): the
clears before acquisition have already run; the `catch` stores the
device error message and resets the flags; `status` is never written. -/
def startRecordingFail (msg : String) (s : SessionState) : SessionState :=
  { s with transcription := "", chunks := [], audioBlob := none,
           error := some msg, isRecording := false, isStreaming := false }

/-- `stopRecording`: when the recorder is active, synchronously stop the
recorder and its tracks, clear the interval, reset `isRecording`, and
show `processing`; the `onstop` flush and the two-second idle timeout
are scheduled as pending tasks.  When the recorder is inactive, the
whole body is skipped. -/
def stopRecording (s : SessionState) : SessionState :=
  if s.recorderActive then
    { s with recorderActive := false, intervalArmed := false,
             isRecording := false, status := "processing" }
  else s

/-- The `ondataavailable` handler: append the fragment when nonempty. -/
def dataAvailable (c : AudioChunk) (s : SessionState) : SessionState :=
  if 0 < c.length then { s with chunks := s.chunks ++ [c] } else s

/-- Component state as first rendered. -/
def initialState : SessionState :=
  { isRecording := false, isStreaming := false, status := "idle",
    transcription := "", error := none, chunks := [], audioBlob := none,
    recorderActive := false, intervalArmed := false }

/-- A recording session with one captured audio fragment. -/
def sRec : SessionState := dataAvailable [0] (startRecordingOk initialState)

/-- The state right after `stopRecording` returns in that session. -/
def sStop : SessionState := stopRecording sRec

/-- Whether a character list ends with a newline, i.e. its last split
segment is empty. -/
def endsNl : List Char → Bool
  | [] => false
  | [c] => c = '\n'
  | _ :: c2 :: cs => endsNl (c2 :: cs)

/-- Whether a line decodes to an event with `status === "error"`. -/
def isErrLine (l : List Char) : Bool :=
  match parseJson l with
  | some d => statusIs d "error"
  | none => false

/-- A complete-status stream event line carrying the text `"hi"`,
newline-terminated (the spec's single-event example, ASCII payload). -/
def exLine : List Char :=
  ("\x7b\"status\":\"complete\",\"result\":\x7b\"text\":\"hi\"\x7d\x7d\n").toList

/-- Delivery of a byte stream one byte at a time: each read holds one
character. -/
def oneCharReads (l : List Char) : List (List Char) := l.map (fun c => [c])

/-- A complete-status line with text `"new"` (from the later request). -/
def lineNew : List Char :=
  ("\x7b\"status\":\"complete\",\"result\":\x7b\"text\":\"new\"\x7d\x7d").toList

/-- A complete-status line with text `"old"` (from the earlier request). -/
def lineOld : List Char :=
  ("\x7b\"status\":\"complete\",\"result\":\x7b\"text\":\"old\"\x7d\x7d").toList

/-- An error-status line with message `"boom"`. -/
def lineErr : List Char :=
  ("\x7b\"status\":\"error\",\"message\":\"boom\"\x7d").toList

/-- A processing-status line (no terminal event). -/
def lineProc : List Char := ("\x7b\"status\":\"processing\"\x7d").toList

/-- A complete-status line carrying no `result` at all. -/
def lineNoRes : List Char := ("\x7b\"status\":\"complete\"\x7d").toList

/-- A complete-status line whose `result` object has no `text` field. -/
def lineEmptyText : List Char :=
  ("\x7b\"status\":\"complete\",\"result\":\x7b\x7d\x7d").toList

/-- A line that is not JSON at all. -/
def mline : List Char := ("not json").toList

/-- The decoded value of `lineNew`. -/
def dNew : Json :=
  Json.jobj [("status", Json.jstr "complete"),
             ("result", Json.jobj [("text", Json.jstr "new")])]

/-- The `result` object of `lineNew`. -/
def rNew : Json := Json.jobj [("text", Json.jstr "new")]

/-- The decoded value of `lineErr`. -/
def dErr : Json :=
  Json.jobj [("status", Json.jstr "error"), ("message", Json.jstr "boom")]

/-- The decoded value of `lineProc`. -/
def dProc : Json := Json.jobj [("status", Json.jstr "processing")]

/-- The decoded value of `lineNoRes`. -/
def dNoRes : Json := Json.jobj [("status", Json.jstr "complete")]

/-- The decoded value of `lineEmptyText`. -/
def dEmpty : Json :=
  Json.jobj [("status", Json.jstr "complete"), ("result", Json.jobj [])]

/-- The empty `result` object of `lineEmptyText`. -/
def rEmpty : Json := Json.jobj []

/-- Two newline-terminated reads, used as a concrete aligned delivery. -/
def wreads : List (List Char) := [lineNew ++ ['\n'], lineErr ++ ['\n']]

/-- A concrete error-free response body: a processing event then a
complete event, split across two reads. -/
def wreadsOk : List (List Char) := [lineProc ++ ['\n'], lineNew]

/-- The tasks pending right after `stopRecording` returns: the `onstop`
flush of the final request and the two-second idle timeout. -/
def wtasks : List PendingTask :=
  [PendingTask.onstopFlush (FetchOutcome.ok [lineProc ++ '\n' :: lineNew]),
   PendingTask.idleTimer]

theorem splitNl_ne_nil (l : List Char) : splitNl l ≠ [] := by
  cases l with
  | nil => simp [splitNl]
  | cons c cs =>
    simp only [splitNl]
    split
    · simp
    · split <;> simp

theorem splitNl_cons_ne (c : Char) (cs : List Char) : splitNl (c :: cs) ≠ [[]] := by
  simp only [splitNl]
  split
  · simpa using splitNl_ne_nil cs
  · split <;> simp

theorem splitNl_cons_eq (c : Char) (cs : List Char) :
    splitNl (c :: cs) =
      if c = '\n' then [] :: splitNl cs
      else
        match splitNl cs with
        | [] => [[c]]
        | l :: ls => (c :: l) :: ls := rfl

theorem splitNl_append_of_endsNl (a b : List Char) (h : endsNl a = true) :
    ∃ ls, splitNl a = ls ++ [[]] ∧ splitNl (a ++ b) = ls ++ splitNl b := by
  induction a with
  | nil => simp [endsNl] at h
  | cons c cs ih =>
    cases cs with
    | nil =>
      have hc : c = '\n' := by simpa [endsNl] using h
      subst hc
      exact ⟨[[]], by simp [splitNl], by simp [splitNl]⟩
    | cons c2 cs2 =>
      have h2 : endsNl (c2 :: cs2) = true := by simpa [endsNl] using h
      obtain ⟨ls, hls1, hls2⟩ := ih h2
      simp only [List.cons_append] at hls2
      by_cases hc : c = '\n'
      · subst hc
        refine ⟨[] :: ls, ?_, ?_⟩
        · rw [splitNl_cons_eq, if_pos rfl, hls1]
          rfl
        · simp only [List.cons_append]
          rw [splitNl_cons_eq, if_pos rfl, hls2]
      · cases ls with
        | nil => exact absurd (by simpa using hls1) (splitNl_cons_ne c2 cs2)
        | cons l0 ls0 =>
          refine ⟨(c :: l0) :: ls0, ?_, ?_⟩
          · rw [splitNl_cons_eq, if_neg hc, hls1]
            rfl
          · simp only [List.cons_append]
            rw [splitNl_cons_eq, if_neg hc, hls2]
            rfl

theorem chunkEvents_append_of_endsNl (a b : List Char) (h : endsNl a = true) :
    chunkEvents (a ++ b) = chunkEvents a ++ chunkEvents b := by
  obtain ⟨ls, h1, h2⟩ := splitNl_append_of_endsNl a b h
  simp [chunkEvents, chunkLines, h1, h2, List.filter_append,
        List.filterMap_append, nonBlank]

/-- C1 counterexample: the stream consisting of the single complete
event line of `exLine`, delivered one byte at a time, decodes to no
StreamEvent at all, while the same bytes delivered as a single read
decode to exactly one event — the claimed split-invariance is false
because the loop keeps no carry-over of a partial line between reads. -/
theorem decode_split_dependent_cex :
    readsEvents (oneCharReads exLine) ≠ chunkEvents (oneCharReads exLine).flatten ∧
    (readsEvents (oneCharReads exLine)).length = 0 ∧
    (chunkEvents (oneCharReads exLine).flatten).length = 1 := by
  have h0 : (readsEvents (oneCharReads exLine)).length = 0 := by decide
  have h1 : (chunkEvents (oneCharReads exLine).flatten).length = 1 := by decide
  refine ⟨fun h => ?_, h0, h1⟩
  rw [h, h1] at h0
  exact Nat.one_ne_zero h0

/-- C1 amended: the decoded StreamEvent sequence is independent of how
the transport groups the bytes into reads, provided every read ends at
a line boundary (ends with a newline); a line split across reads is
instead parsed as fragments and dropped, as the counterexample shows. -/
theorem decode_split_invariant_of_newline_terminated (reads : List (List Char))
    (h : ∀ r ∈ reads, endsNl r = true) :
    readsEvents reads = chunkEvents reads.flatten := by
  induction reads with
  | nil => simp [readsEvents, chunkEvents, chunkLines, splitNl, nonBlank]
  | cons r rest ih =>
    have hr : endsNl r = true := h r (by simp)
    have hrest : ∀ x ∈ rest, endsNl x = true := fun x hx => h x (by simp [hx])
    calc readsEvents (r :: rest)
        = chunkEvents r ++ readsEvents rest := by simp [readsEvents]
      _ = chunkEvents r ++ chunkEvents rest.flatten := by rw [ih hrest]
      _ = chunkEvents (r ++ rest.flatten) := (chunkEvents_append_of_endsNl _ _ hr).symm
      _ = chunkEvents (r :: rest).flatten := by rw [List.flatten_cons]

/-- Witness for the amended C1 theorem at a concrete aligned delivery. -/
theorem decode_split_invariant_witness :
    (∀ r ∈ wreads, endsNl r = true) ∧
    readsEvents wreads = chunkEvents wreads.flatten :=
  ⟨by decide, decode_split_invariant_of_newline_terminated wreads (by decide)⟩

theorem statusIs_excl (data : Json) (a b : String) (ha : statusIs data a = true)
    (hne : (a == b) = false) : statusIs data b = false := by
  unfold statusIs at ha ⊢
  revert ha
  cases getField data "status" with
  | none => intro ha; simp at ha
  | some v =>
    cases v with
    | jstr s0 =>
      intro ha
      have hs0 : s0 = a := by simpa using ha
      subst hs0
      simpa using hne
    | jnull => intro ha; simp at ha
    | jbool b2 => intro ha; simp at ha
    | jnum lex => intro ha; simp at ha
    | jarr es => intro ha; simp at ha
    | jobj fs => intro ha; simp at ha

/-- C2 counterexample: two overlapping requests, request a issued before
request b (so a's sequence number is smaller); b's `complete` event
carrying `"new"` is applied first, then a's stale `complete` event
carrying `"old"` arrives — and overwrites the transcription, because the
loop applies every `complete` event unconditionally (there is no
sequence counter anywhere in the component). -/
theorem stale_complete_overwrites_cex :
    (processLines sRec [lineNew]).transcription = "new" ∧
    (processLines (processLines sRec [lineNew]) [lineOld]).transcription = "old" ∧
    (processLines (processLines sRec [lineNew]) [lineOld]).transcription ≠ "new" :=
  ⟨rfl, rfl, by decide⟩

/-- C2 amended: arbitration is last-arrival-wins, not
last-issue-order-wins — every `complete` event with a truthy `result`
overwrites the transcription with its text regardless of which request
owns it or what the Outcome currently holds. -/
theorem complete_event_applied_unconditionally (s : SessionState) (line : List Char)
    (data r : Json) (hp : parseJson line = some data)
    (hs : statusIs data "complete" = true)
    (hr : getField data "result" = some r) (ht : jsTruthyV r = true) :
    applyLine s line = ({ s with transcription := textOrEmpty r }, false) := by
  have he : statusIs data "error" = false :=
    statusIs_excl data "complete" "error" hs (by decide)
  simp [applyLine, hp, he, hr, hs, ht]

/-- Witness for the amended C2 theorem at a concrete event. -/
theorem complete_event_applied_witness :
    applyLine sRec lineNew = ({ sRec with transcription := textOrEmpty rNew }, false) :=
  complete_event_applied_unconditionally sRec lineNew dNew rNew rfl rfl rfl rfl

/-- C3: the code's own comment says a transport failure must not set the
error while recording, but every `processAudioChunks` the timer invokes
was captured with `isRecording = false` in its closure
(`capturedIsRecording`), so the `!isRecording` guard always passes: a
failing periodic request during recording populates the error field.
The final request (after `stopRecording`) also populates it, as the
claim says. -/
theorem periodic_transport_failure_sets_error :
    sRec.isRecording = true ∧ sRec.status = "recording" ∧ sRec.error = none ∧
    (runTask sRec (PendingTask.respFail "Failed to fetch")).error =
      some "Failed to fetch" ∧
    (runTask sStop (PendingTask.onstopFlush (FetchOutcome.fail "Failed to fetch"))).error =
      some "Failed to fetch" :=
  ⟨rfl, rfl, rfl, rfl, rfl⟩

theorem applyLine_preserves (s : SessionState) (l : List Char) :
    (applyLine s l).1.status = s.status ∧
    (applyLine s l).1.intervalArmed = s.intervalArmed ∧
    (applyLine s l).1.chunks = s.chunks := by
  unfold applyLine
  rcases parseJson l with _ | data
  · exact ⟨rfl, rfl, rfl⟩
  · dsimp only
    split
    · exact ⟨rfl, rfl, rfl⟩
    · rcases getField data "result" with _ | r
      · exact ⟨rfl, rfl, rfl⟩
      · dsimp only
        split
        · exact ⟨rfl, rfl, rfl⟩
        · exact ⟨rfl, rfl, rfl⟩

theorem processLines_preserves (ls : List (List Char)) (s : SessionState) :
    (processLines s ls).status = s.status ∧
    (processLines s ls).intervalArmed = s.intervalArmed ∧
    (processLines s ls).chunks = s.chunks := by
  induction ls generalizing s with
  | nil => exact ⟨rfl, rfl, rfl⟩
  | cons l rest ih =>
    have hfields := applyLine_preserves s l
    simp only [processLines]
    rcases hA : applyLine s l with ⟨s2, brk⟩
    rw [hA] at hfields
    cases brk
    · obtain ⟨h1, h2, h3⟩ := ih s2
      obtain ⟨g1, g2, g3⟩ := hfields
      exact ⟨h1.trans g1, h2.trans g2, h3.trans g3⟩
    · exact hfields

theorem processReads_preserves (reads : List (List Char)) (s : SessionState) :
    (processReads s reads).status = s.status ∧
    (processReads s reads).intervalArmed = s.intervalArmed ∧
    (processReads s reads).chunks = s.chunks := by
  induction reads generalizing s with
  | nil => exact ⟨rfl, rfl, rfl⟩
  | cons r rest ih =>
    obtain ⟨h1, h2, h3⟩ := ih (processChunk s r)
    obtain ⟨g1, g2, g3⟩ := processLines_preserves (chunkLines r) s
    exact ⟨h1.trans g1, h2.trans g2, h3.trans g3⟩

theorem runTask_preserves (s : SessionState) (t : PendingTask) :
    (runTask s t).intervalArmed = s.intervalArmed ∧
    (runTask s t).chunks = s.chunks := by
  cases t with
  | respOk reads =>
    exact ⟨(processReads_preserves reads s).2.1, (processReads_preserves reads s).2.2⟩
  | respFail msg => exact ⟨rfl, rfl⟩
  | onstopFlush o =>
    simp only [runTask]
    split
    · exact ⟨rfl, rfl⟩
    · cases o with
      | ok reads =>
        exact ⟨(processReads_preserves reads _).2.1, (processReads_preserves reads _).2.2⟩
      | fail msg => exact ⟨rfl, rfl⟩
  | idleTimer => exact ⟨rfl, rfl⟩

theorem runTasks_preserves (ts : List PendingTask) (s : SessionState) :
    (runTasks s ts).intervalArmed = s.intervalArmed ∧
    (runTasks s ts).chunks = s.chunks := by
  induction ts generalizing s with
  | nil => exact ⟨rfl, rfl⟩
  | cons t rest ih =>
    obtain ⟨h1, h2⟩ := ih (runTask s t)
    obtain ⟨g1, g2⟩ := runTask_preserves s t
    exact ⟨h1.trans g1, h2.trans g2⟩

theorem runTasks_idle (ts : List PendingTask) (s : SessionState)
    (h : s.status = "idle") : (runTasks s ts).status = "idle" := by
  induction ts generalizing s with
  | nil => exact h
  | cons t rest ih =>
    apply ih
    cases t with
    | respOk reads => exact (processReads_preserves reads s).1.trans h
    | respFail msg => exact h
    | onstopFlush o => rfl
    | idleTimer => rfl

theorem runTasks_reaches_idle (ts : List PendingTask) (s : SessionState)
    (h : ∃ t ∈ ts, setsIdle t = true) : (runTasks s ts).status = "idle" := by
  induction ts generalizing s with
  | nil => simp at h
  | cons t rest ih =>
    by_cases hrest : ∃ u ∈ rest, setsIdle u = true
    · exact ih (runTask s t) hrest
    · have ht : setsIdle t = true := by
        rcases h with ⟨u, hu, hset⟩
        rcases List.mem_cons.mp hu with rfl | hmem
        · exact hset
        · exact absurd ⟨u, hmem, hset⟩ hrest
      have hidle : (runTask s t).status = "idle" := by
        cases t with
        | onstopFlush o => rfl
        | idleTimer => rfl
        | respOk reads => simp [setsIdle] at ht
        | respFail msg => simp [setsIdle] at ht
      exact runTasks_idle rest (runTask s t) hidle

/-- C4: `stopRecording` on an active recorder clears the interval
synchronously in its own body, nothing run afterwards can re-arm it, a
trigger firing after stop issues no request, and whatever order the
pending work resolves in — any number of in-flight periodic responses
or failures, the final flush with any outcome, the idle timeout — the
session's status ends at `idle` as long as at least one of the two
idle-setting continuations `stopRecording` schedules (the `onstop`
flush's `finally`, the two-second timeout) is among the pending tasks. -/
theorem stop_disarms_and_reaches_idle (s : SessionState) (ts : List PendingTask)
    (hact : s.recorderActive = true) (hid : ∃ t ∈ ts, setsIdle t = true) :
    (stopRecording s).intervalArmed = false ∧
    (runTasks (stopRecording s) ts).intervalArmed = false ∧
    tickIssues (runTasks (stopRecording s) ts) = false ∧
    (runTasks (stopRecording s) ts).status = "idle" := by
  have hstop : (stopRecording s).intervalArmed = false := by
    simp [stopRecording, hact]
  have harm := (runTasks_preserves ts (stopRecording s)).1
  rw [hstop] at harm
  refine ⟨hstop, harm, ?_, runTasks_reaches_idle ts _ hid⟩
  simp [tickIssues, harm]

/-- Witness for the C4 theorem at the concrete stopped session. -/
theorem stop_disarms_witness :
    sRec.recorderActive = true ∧
    (stopRecording sRec).intervalArmed = false ∧
    (runTasks (stopRecording sRec) wtasks).intervalArmed = false ∧
    tickIssues (runTasks (stopRecording sRec) wtasks) = false ∧
    (runTasks (stopRecording sRec) wtasks).status = "idle" :=
  ⟨rfl, stop_disarms_and_reaches_idle sRec wtasks rfl
    ⟨PendingTask.idleTimer, by simp [wtasks], rfl⟩⟩

/-- C5 counterexample: an `error`-status event delivered on a periodic
request while the session is recording populates the error field — the
`setError(data.message)` branch carries no periodic/final or recording
guard, so the event is not swallowed as claimed. -/
theorem error_event_surfaces_on_periodic_cex :
    sRec.isRecording = true ∧ sRec.error = none ∧
    (runTask sRec (PendingTask.respOk [lineErr])).error = some "boom" :=
  ⟨rfl, rfl, rfl⟩

/-- C5 amended: an `error`-status event sets the error field to its
message and breaks out of the line loop of its read, on every request —
periodic or final, recording or not. -/
theorem error_event_sets_error_unconditionally (s : SessionState) (line : List Char)
    (data : Json) (hp : parseJson line = some data)
    (hs : statusIs data "error" = true) :
    applyLine s line = ({ s with error := setErrorVal (getField data "message") }, true) := by
  simp [applyLine, hp, hs]

/-- Witness for the amended C5 theorem at a concrete event. -/
theorem error_event_sets_error_witness :
    applyLine sRec lineErr =
      ({ sRec with error := setErrorVal (getField dErr "message") }, true) :=
  error_event_sets_error_unconditionally sRec lineErr dErr rfl rfl

/-- C6 counterexample: a final-request response that ends without any
terminal event (here a single `processing` event) leaves the error field
empty — `done` merely breaks the read loop and nothing maps the
premature close to an implicit error; only the status is reset. -/
theorem end_of_stream_no_implicit_error_cex :
    (runTask sStop (PendingTask.onstopFlush (FetchOutcome.ok [lineProc]))).error = none ∧
    (runTask sStop (PendingTask.onstopFlush (FetchOutcome.ok [lineProc]))).status = "idle" :=
  ⟨rfl, rfl⟩

theorem applyLine_no_err (s : SessionState) (l : List Char) (h : isErrLine l = false) :
    (applyLine s l).1.error = s.error ∧ (applyLine s l).2 = false := by
  rcases hp : parseJson l with _ | data
  · simp [applyLine, hp]
  · have h2 : statusIs data "error" = false := by
      unfold isErrLine at h
      rw [hp] at h
      exact h
    rcases hr : getField data "result" with _ | r
    · simp [applyLine, hp, h2, hr]
    · by_cases hc : (statusIs data "complete" && jsTruthyV r) = true
      · simp [applyLine, hp, h2, hr, hc]
      · simp only [Bool.not_eq_true] at hc
        simp [applyLine, hp, h2, hr, hc]

theorem processLines_no_err (ls : List (List Char)) (s : SessionState)
    (h : ∀ l ∈ ls, isErrLine l = false) :
    (processLines s ls).error = s.error := by
  induction ls generalizing s with
  | nil => rfl
  | cons l rest ih =>
    have hl := applyLine_no_err s l (h l (by simp))
    simp only [processLines]
    rcases hA : applyLine s l with ⟨s2, brk⟩
    rw [hA] at hl
    obtain ⟨he, hb⟩ := hl
    dsimp only at he hb
    subst hb
    exact (ih s2 (fun x hx => h x (by simp [hx]))).trans he

theorem processReads_no_err (reads : List (List Char)) (s : SessionState)
    (h : ∀ l ∈ (reads.map chunkLines).flatten, isErrLine l = false) :
    (processReads s reads).error = s.error := by
  induction reads generalizing s with
  | nil => rfl
  | cons r rest ih =>
    simp only [List.map_cons, List.flatten_cons, List.mem_append] at h
    have hr : ∀ l ∈ chunkLines r, isErrLine l = false :=
      fun l hl => h l (Or.inl hl)
    have hrest : ∀ l ∈ (rest.map chunkLines).flatten, isErrLine l = false :=
      fun l hl => h l (Or.inr (by simpa using hl))
    exact (ih (processChunk s r) hrest).trans (processLines_no_err (chunkLines r) s hr)

/-- C6 amended: end-of-stream is not treated as an implicit error — a
response stream none of whose lines decodes to an `error`-status event
leaves the error field unchanged, and on the final request (the
`onstop` flush) likewise only the lifecycle status is reset to idle. -/
theorem no_error_event_preserves_error (s : SessionState) (reads : List (List Char))
    (h : ∀ l ∈ (reads.map chunkLines).flatten, isErrLine l = false) :
    (processReads s reads).error = s.error ∧
    (runTask s (PendingTask.onstopFlush (FetchOutcome.ok reads))).error = s.error := by
  refine ⟨processReads_no_err reads s h, ?_⟩
  simp only [runTask, applyOutcome]
  split
  · rfl
  · exact processReads_no_err reads { s with audioBlob := some s.chunks } h

/-- Witness for the amended C6 theorem on a concrete error-free body. -/
theorem no_error_event_preserves_error_witness :
    (∀ l ∈ (wreadsOk.map chunkLines).flatten, isErrLine l = false) ∧
    (processReads sRec wreadsOk).error = sRec.error ∧
    (runTask sRec (PendingTask.onstopFlush (FetchOutcome.ok wreadsOk))).error = sRec.error :=
  ⟨by decide, (no_error_event_preserves_error sRec wreadsOk (by decide)).1,
   (no_error_event_preserves_error sRec wreadsOk (by decide)).2⟩

/-- C7: a line that fails to parse is ignored without aborting — the
loop over any line list containing it behaves exactly as if the
malformed line were absent, so valid lines after it are still applied. -/
theorem malformed_line_skipped (s : SessionState) (pre post : List (List Char))
    (m : List Char) (h : parseJson m = none) :
    processLines s (pre ++ m :: post) = processLines s (pre ++ post) := by
  induction pre generalizing s with
  | nil =>
    simp only [List.nil_append, processLines]
    rw [show applyLine s m = (s, false) by simp [applyLine, h]]
  | cons p rest ih =>
    simp only [List.cons_append, processLines]
    rcases hA : applyLine s p with ⟨s2, brk⟩
    cases brk
    · exact ih s2
    · rfl

/-- Witness for C7: a non-JSON line between two valid complete events. -/
theorem malformed_line_skipped_witness :
    parseJson mline = none ∧
    processLines sRec ([lineNew] ++ mline :: [lineOld]) =
      processLines sRec ([lineNew] ++ [lineOld]) :=
  ⟨rfl, malformed_line_skipped sRec [lineNew] [lineOld] mline rfl⟩

/-- C8: a `processing`-status event matches neither the error branch nor
the complete branch, so applying it changes nothing at all — in
particular the transcription text — and does not break the loop. -/
theorem processing_event_noop (s : SessionState) (line : List Char) (data : Json)
    (hp : parseJson line = some data) (hs : statusIs data "processing" = true) :
    applyLine s line = (s, false) := by
  have he : statusIs data "error" = false :=
    statusIs_excl data "processing" "error" hs (by decide)
  have hc : statusIs data "complete" = false :=
    statusIs_excl data "processing" "complete" hs (by decide)
  rcases hr : getField data "result" with _ | r
  · simp [applyLine, hp, he, hr]
  · simp [applyLine, hp, he, hr, hc]

/-- Witness for C8 at a concrete processing event. -/
theorem processing_event_noop_witness :
    applyLine sRec lineProc = (sRec, false) :=
  processing_event_noop sRec lineProc dProc rfl rfl

/-- C9: when `getUserMedia` rejects, the device error message is stored
in the error field and the status — never written on this path — stays
idle; when acquisition succeeds, the session transitions to recording
with the accumulator reset and the prior Outcome (text and error)
cleared. -/
theorem start_device_error_or_success (s : SessionState) (msg : String)
    (h : s.status = "idle") :
    (startRecordingFail msg s).status = "idle" ∧
    (startRecordingFail msg s).error = some msg ∧
    (startRecordingFail msg s).isRecording = false ∧
    (startRecordingOk s).status = "recording" ∧
    (startRecordingOk s).chunks = [] ∧
    (startRecordingOk s).transcription = "" ∧
    (startRecordingOk s).error = none :=
  ⟨h, rfl, rfl, rfl, rfl, rfl, rfl⟩

/-- Witness for C9 from the freshly rendered component. -/
theorem start_device_error_witness :
    (startRecordingFail "Permission denied" initialState).status = "idle" ∧
    (startRecordingFail "Permission denied" initialState).error = some "Permission denied" ∧
    (startRecordingFail "Permission denied" initialState).isRecording = false ∧
    (startRecordingOk initialState).status = "recording" ∧
    (startRecordingOk initialState).chunks = [] ∧
    (startRecordingOk initialState).transcription = "" ∧
    (startRecordingOk initialState).error = none :=
  start_device_error_or_success initialState "Permission denied" rfl

/-- C10: a `complete` event without a `result` is ignored entirely
(state and loop control unchanged), and a `complete` event whose truthy
`result` has an absent or empty `text` sets the transcription to the
empty string via `data.result.text || ""`. -/
theorem complete_result_handling (s : SessionState) (line : List Char) (data : Json)
    (hp : parseJson line = some data) (hs : statusIs data "complete" = true) :
    (getField data "result" = none → applyLine s line = (s, false)) ∧
    (∀ r, getField data "result" = some r → jsTruthyV r = true →
      (getField r "text" = none ∨ getField r "text" = some (Json.jstr "")) →
      applyLine s line = ({ s with transcription := "" }, false)) := by
  have he : statusIs data "error" = false :=
    statusIs_excl data "complete" "error" hs (by decide)
  constructor
  · intro hr
    simp [applyLine, hp, he, hr]
  · intro r hr ht htext
    have htxt : textOrEmpty r = "" := by
      rcases htext with h0 | h0
      · unfold textOrEmpty
        rw [h0]
      · unfold textOrEmpty
        rw [h0]
        decide
    rw [show ({ s with transcription := "" } : SessionState)
          = { s with transcription := textOrEmpty r } by rw [htxt]]
    simp [applyLine, hp, he, hr, hs, ht]

/-- Witness for C10 at concrete events (no result; empty result). -/
theorem complete_result_handling_witness :
    applyLine sRec lineNoRes = (sRec, false) ∧
    applyLine sRec lineEmptyText = ({ sRec with transcription := "" }, false) :=
  ⟨(complete_result_handling sRec lineNoRes dNoRes rfl rfl).1 rfl,
   (complete_result_handling sRec lineEmptyText dEmpty rfl rfl).2 rEmpty rfl rfl (Or.inl rfl)⟩

end ASR
